import Mathlib

/-!
Verification of the option-normalization pipeline of the rrule repository
(`src/parseoptions.ts`).  The pipeline is embedded shallowly: each block of
`parseOptions` becomes a Lean definition, and the whole function becomes
`RRuleSpec.parseOptions`, an `Except`-valued function (the three `throw`
sites become `Except.error`).

The repository ships only `src/parseoptions.ts`; the modules it imports
(`./rrule`, `./helpers`, `./dateutil`, `./weekday`, `./types`) are not part
of the sources.  Wherever one of those is needed it is modelled from the
specification, and the corresponding definition carries a doc comment
starting with `Modelled from the spec:`.
-/

namespace RRuleSpec

/-- Modelled from the spec: `dateutil` (not under `src/`) wraps a JavaScript
`Date`.  A date is represented by its UTC accessors: `getTime` is the
millisecond timestamp, the other fields are the values of the corresponding
`getUTC*` accessors (`getUTCMonth` is 0-based, `getUTCDay` is 0 = Sunday). -/
structure JSDate where
  getTime : Int
  getUTCMonth : Int
  getUTCDate : Int
  getUTCDay : Fin 7
  getUTCHours : Int
  getUTCMinutes : Int
  getUTCSeconds : Int

/-- Modelled from the spec: per ECMA-262, `getUTCMilliseconds` is
`msFromTime(t) = t modulo 1000` with a non-negative result (floor modulus),
i.e. `Int.emod` of the timestamp. -/
def JSDate.getUTCMilliseconds (d : JSDate) : Int :=
  Int.emod d.getTime 1000

/-- Line 40, `new Date(new Date().setMilliseconds(0))`: the current instant
with its sub-second component truncated to zero.  Truncating the sub-second
part changes no other UTC field. -/
def truncateMilliseconds (d : JSDate) : JSDate :=
  { d with getTime := d.getTime - Int.emod d.getTime 1000 }

/-- Modelled from the spec: `dateutil.getWeekday` (not under `src/`) maps a
date to its Monday-based weekday code 0..6 via the table
`PYWEEKDAYS = [6, 0, 1, 2, 3, 4, 5]` indexed by `getUTCDay`. -/
def getWeekday (d : JSDate) : Int :=
  ([6, 0, 1, 2, 3, 4, 5] : List Int).getD d.getUTCDay.val 0

/-- Modelled from the spec: the `Weekday` class (`weekday.ts`, not under
`src/`) — spec §3: either a bare weekday code or a weekday code paired with
an occurrence ordinal `n`; an ordinal of zero is not constructible, recorded
here as the invariant `n ≠ some 0`. -/
structure Weekday where
  weekday : Int
  n : Option Int
  n_nonzero : n ≠ some 0

/-- Modelled from the spec: `dateutil.Time` (not under `src/`) — spec §3,
a `(hour, minute, second, millisecond)` tuple. -/
structure Time where
  hour : Int
  minute : Int
  second : Int
  millisecond : Int
deriving DecidableEq

/-- Ascending order on times by the `(hour, minute, second, millisecond)`
tuple, lexicographically — the order spec §4.8 sorts the timeset by. -/
def timeLexLE (a b : Time) : Prop :=
  a.hour < b.hour ∨ (a.hour = b.hour ∧
    (a.minute < b.minute ∨ (a.minute = b.minute ∧
      (a.second < b.second ∨ (a.second = b.second ∧
        a.millisecond ≤ b.millisecond)))))

instance : DecidableRel timeLexLE := fun a b => by
  unfold timeLexLE
  infer_instance

/-- Modelled from the spec: `dateutil.sort` (not under `src/`) sorts the
time list ascending; per spec §4.8 the resulting list is "sorted ascending
by (hour, minute, second, millisecond)", so it is embedded as the stable
insertion sort by that lexicographic tuple order (the JavaScript array
sort is stable, so any stable sort by the same order gives the same
list). -/
def sortTimes (ts : List Time) : List Time :=
  List.insertionSort timeLexLE ts

/-- A value that may be supplied either as a bare number or as an array of
numbers (the shape of the `by*` numeric option fields). -/
inductive NumOrList where
  | num (n : Int)
  | list (l : List Int)
deriving DecidableEq

/-- An element of a `byweekday` array: a bare numeric code or a `Weekday`
token. -/
inductive WdEntry where
  | num (n : Int)
  | token (w : Weekday)

/-- The possible shapes of a supplied `byweekday` value. -/
inductive ByWeekdayValue where
  | num (n : Int)
  | token (w : Weekday)
  | arr (l : List WdEntry)

/-- The possible shapes of a supplied `wkst` value. -/
inductive WkstValue where
  | num (n : Int)
  | token (w : Weekday)

/-- Truthiness, `Boolean(x)`, of a merged option value: `null`/`undefined` and the number
0 are falsy; every array (also an empty one) is truthy. -/
def jsTruthy : Option NumOrList → Bool
  | none => false
  | some (NumOrList.num n) => decide (n ≠ 0)
  | some (NumOrList.list _) => true

/-- Modelled from the spec: `helpers.notEmpty` (not under `src/`) is
`!!x && x.length !== 0` — false for `null`/`undefined` and the scalar 0,
true for every other scalar (a number has no length property, and
`undefined !== 0` holds), and true for an array exactly when it is
non-empty.  This makes any present nonzero scalar constraint suppress the
implicit derivation, as spec §4.6 describes. -/
def notEmptyNL : Option NumOrList → Bool
  | none => false
  | some (NumOrList.num n) => decide (n ≠ 0)
  | some (NumOrList.list l) => decide (l ≠ [])

/-- Scalar-to-array promotion (`isNumber(x) ? [x] : x`). -/
def promoteNumOrList : NumOrList → List Int
  | NumOrList.num n => [n]
  | NumOrList.list l => l

/-- The three error kinds of the pipeline (spec §7); each constructor is one
`throw new Error(...)` site of `parseoptions.ts`. -/
inductive RRuleError where
  | invalidOptions (keys : List String)
  | invalidFrequency (freq : Int)
  | invalidSetPos
deriving DecidableEq

/-- Line 19, joining the invalid keys: the JavaScript array join with
separator comma-space. -/
def joinComma : List String → String
  | [] => ""
  | [k] => k
  | k :: rest => k ++ (", ") ++ joinComma rest

/-- The message text of each thrown `Error`, exactly as in the source
(lines 19, 37, 58). -/
def errorMessage : RRuleError → String
  | RRuleError.invalidOptions ks => ("Invalid options: ") ++ joinComma ks
  | RRuleError.invalidFrequency f => ("Invalid frequency: ") ++ toString f
  | RRuleError.invalidSetPos =>
      ("bysetpos must be between 1 and 366,") ++ (" or between -366 and -1")

namespace RRule

/-- Modelled from the spec: the ordered `Frequency` enum (spec §3), YEARLY
coarsest; `RRule.YEARLY = 0` … `RRule.SECONDLY = 6`. -/
def YEARLY : Int := 0

def MONTHLY : Int := 1

def WEEKLY : Int := 2

def DAILY : Int := 3

def HOURLY : Int := 4

def MINUTELY : Int := 5

def SECONDLY : Int := 6

/-- Modelled from the spec: `RRule.MO`, Monday, weekday code 0, no
ordinal. -/
def MO : Weekday := ⟨0, none, by decide⟩

end RRule

/-- Modelled from the spec: `defaultKeys` (`rrule.ts`, not under `src/`) —
the recognized option-key set, spec §6: frequency, interval, start-instant,
week-start, count, until-instant, set-position, month, month-day, year-day,
week-number, weekday, hour/minute/second, Easter-offset, timezone. -/
def defaultKeys : List String :=
  ["freq", "dtstart", "interval", "wkst", "count", "until", "bysetpos",
   "bymonth", "bymonthday", "byyearday", "byweekno", "byweekday",
   "byhour", "byminute", "bysecond", "byeaster", "tzid"]

/-- The input mapping, `Partial<Options>`: every recognized field is either absent (`none`) or
carries a value of its declared type.  `extraKeys` models any unrecognized
field names present in the input mapping (their values are never read). -/
structure RawOptions where
  freq : Option Int := none
  dtstart : Option JSDate := none
  interval : Option Int := none
  wkst : Option WkstValue := none
  count : Option Int := none
  untilDate : Option JSDate := none
  bysetpos : Option NumOrList := none
  bymonth : Option NumOrList := none
  bymonthday : Option NumOrList := none
  byyearday : Option NumOrList := none
  byweekno : Option NumOrList := none
  byweekday : Option ByWeekdayValue := none
  byhour : Option NumOrList := none
  byminute : Option NumOrList := none
  bysecond : Option NumOrList := none
  byeaster : Option Int := none
  tzid : Option String := none
  extraKeys : List String := []

/-- Line 9, `Object.keys(options)`: the names of the fields present in the
input mapping (recognized ones in declaration order, then the unrecognized
ones). -/
def RawOptions.presentKeys (o : RawOptions) : List String :=
  (if o.freq.isSome then ["freq"] else []) ++
  (if o.dtstart.isSome then ["dtstart"] else []) ++
  (if o.interval.isSome then ["interval"] else []) ++
  (if o.wkst.isSome then ["wkst"] else []) ++
  (if o.count.isSome then ["count"] else []) ++
  (if o.untilDate.isSome then ["until"] else []) ++
  (if o.bysetpos.isSome then ["bysetpos"] else []) ++
  (if o.bymonth.isSome then ["bymonth"] else []) ++
  (if o.bymonthday.isSome then ["bymonthday"] else []) ++
  (if o.byyearday.isSome then ["byyearday"] else []) ++
  (if o.byweekno.isSome then ["byweekno"] else []) ++
  (if o.byweekday.isSome then ["byweekday"] else []) ++
  (if o.byhour.isSome then ["byhour"] else []) ++
  (if o.byminute.isSome then ["byminute"] else []) ++
  (if o.bysecond.isSome then ["bysecond"] else []) ++
  (if o.byeaster.isSome then ["byeaster"] else []) ++
  (if o.tzid.isSome then ["tzid"] else []) ++
  o.extraKeys

/-- Lines 13-16 of `initializeOptions`: the present keys that are not in the
recognized key set (in input order, all of them). -/
def invalidKeysOf (o : RawOptions) : List String :=
  (RawOptions.presentKeys o).filter (fun k => !(defaultKeys.contains k))

/-- The working structure after the default merge (lines 29-32): every
recognized key has a concrete value, `none` standing for `null`. -/
structure MergedOptions where
  freq : Int
  dtstart : Option JSDate
  interval : Int
  wkst : Option WkstValue
  count : Option Int
  untilDate : Option JSDate
  bysetpos : Option NumOrList
  bymonth : Option NumOrList
  bymonthday : Option NumOrList
  byyearday : Option NumOrList
  byweekno : Option NumOrList
  byweekday : Option ByWeekdayValue
  byhour : Option NumOrList
  byminute : Option NumOrList
  bysecond : Option NumOrList
  byeaster : Option Int
  tzid : Option String

/-- Lines 29-32: fill every absent recognized key with its default.
Modelled from the spec (§4.2, `DEFAULT_OPTIONS` is in `rrule.ts`, not under
`src/`): frequency defaults to YEARLY, interval to 1, wkst to Monday, every
other field to `null`. -/
def mergeOptions (o : RawOptions) : MergedOptions :=
  { freq := o.freq.getD RRule.YEARLY
    dtstart := o.dtstart
    interval := o.interval.getD 1
    wkst := some (o.wkst.getD (WkstValue.token RRule.MO))
    count := o.count
    untilDate := o.untilDate
    bysetpos := o.bysetpos
    bymonth := o.bymonth
    bymonthday := o.bymonthday
    byyearday := o.byyearday
    byweekno := o.byweekno
    byweekday := o.byweekday
    byhour := o.byhour
    byminute := o.byminute
    bysecond := o.bysecond
    byeaster := o.byeaster
    tzid := o.tzid }

/-- Lines 54-60: a `bysetpos` element is rejected when
`v === 0 || !(v >= -366 && v <= 366)`. -/
def bysetposHasInvalid : Option (List Int) → Bool
  | none => false
  | some l => l.any (fun v => decide (v = 0) || !(decide (-366 ≤ v) && decide (v ≤ 366)))

/-- Lines 64-87: the implicit-constraint derivation.  Takes the
(post-Easter-override) frequency, the resolved start instant and the merged
constraint fields; returns the possibly updated
`(bymonth, bymonthday, byweekday)` triple. -/
def deriveImplicit (freq : Int) (dtstart : JSDate)
    (bymonth bymonthday byweekno byyearday : Option NumOrList)
    (byweekday : Option ByWeekdayValue) (byeaster : Option Int) :
    Option NumOrList × Option NumOrList × Option ByWeekdayValue :=
  if jsTruthy byweekno || notEmptyNL byweekno || notEmptyNL byyearday ||
      jsTruthy bymonthday || notEmptyNL bymonthday ||
      byweekday.isSome || byeaster.isSome then
    (bymonth, bymonthday, byweekday)
  else if freq = RRule.YEARLY then
    ((if jsTruthy bymonth then bymonth
      else some (NumOrList.num (dtstart.getUTCMonth + 1))),
     some (NumOrList.num dtstart.getUTCDate), byweekday)
  else if freq = RRule.MONTHLY then
    (bymonth, some (NumOrList.num dtstart.getUTCDate), byweekday)
  else if freq = RRule.WEEKLY then
    (bymonth, bymonthday, some (ByWeekdayValue.arr [WdEntry.num (getWeekday dtstart)]))
  else
    (bymonth, bymonthday, byweekday)

/-- Lines 98-122: split `bymonthday` into the positive (`bymonthday`) and
negative (`bynmonthday`) buckets; the array case is the push loop of the source. -/
def splitBymonthday : Option NumOrList → List Int × List Int
  | none => ([], [])
  | some (NumOrList.list l) =>
      l.foldl (fun acc v =>
        if decide (0 < v) then (acc.1 ++ [v], acc.2)
        else if decide (v < 0) then (acc.1, acc.2 ++ [v])
        else acc) ([], [])
  | some (NumOrList.num v) =>
      if decide (v < 0) then ([], [v]) else ([v], [])

/-- Lines 129-164: classify `byweekday` into the plain-weekday and the
ordinal (`bynweekday`) buckets; `!wd.n` (also true for an ordinal of 0) and
`opts.freq > RRule.MONTHLY` route a token to the plain bucket.  The array
case is the push loop of the source, with each bucket nulled when it ends up
empty. -/
def classifyByweekday (freq : Int) :
    Option ByWeekdayValue → Option (List Int) × Option (List (Int × Int))
  | none => (none, none)
  | some (ByWeekdayValue.num n) => (some [n], none)
  | some (ByWeekdayValue.token w) =>
      match w.n with
      | none => (some [w.weekday], none)
      | some k =>
          if decide (k = 0) || decide (RRule.MONTHLY < freq) then
            (some [w.weekday], none)
          else
            (none, some [(w.weekday, k)])
  | some (ByWeekdayValue.arr l) =>
      let acc := l.foldl (fun acc e =>
        match e with
        | WdEntry.num n => (acc.1 ++ [n], acc.2)
        | WdEntry.token w =>
            match w.n with
            | none => (acc.1 ++ [w.weekday], acc.2)
            | some k =>
                if decide (k = 0) || decide (RRule.MONTHLY < freq) then
                  (acc.1 ++ [w.weekday], acc.2)
                else
                  (acc.1, acc.2 ++ [(w.weekday, k)]))
        (([], []) : List Int × List (Int × Int))
      ((if acc.1.isEmpty then none else some acc.1),
       (if acc.2.isEmpty then none else some acc.2))

/-- Lines 166-187: normalize one of `byhour`/`byminute`/`bysecond`: when
absent, default to `[dflt]` if the frequency condition holds and to `null`
otherwise; a bare number is promoted to a one-element list. -/
def timeField (x : Option NumOrList) (useDefault : Bool) (dflt : Int) :
    Option (List Int) :=
  match x with
  | none => if useDefault then some [dflt] else none
  | some (NumOrList.num n) => some [n]
  | some (NumOrList.list l) => some l

/-- Lines 189-210: the timeset.  `null` for HOURLY or finer; otherwise the
triple push loop of the source over hour × minute × second followed by
`dateutil.sort`.  The `opts.byhour!` non-null assertions are rendered as
`getD []` (unreachable when the frequency is coarser than HOURLY). -/
def buildTimeset (freq : Int) (byhour byminute bysecond : Option (List Int))
    (ms : Int) : Option (List Time) :=
  if decide (RRule.HOURLY ≤ freq) then none
  else
    some (sortTimes
      ((byhour.getD []).foldl (fun acc hour =>
        (byminute.getD []).foldl (fun acc2 minute =>
          (bysecond.getD []).foldl (fun acc3 second =>
            acc3 ++ [Time.mk hour minute second ms]) acc2) acc) []))

/-- The canonical options (`ParsedOptions` of `types.ts`): every field in
its normalized shape. -/
structure ParsedOptions where
  freq : Int
  dtstart : JSDate
  interval : Int
  wkst : Int
  count : Option Int
  untilDate : Option JSDate
  bysetpos : Option (List Int)
  bymonth : Option (List Int)
  bymonthday : List Int
  bynmonthday : List Int
  byyearday : Option (List Int)
  byweekno : Option (List Int)
  byweekday : Option (List Int)
  bynweekday : Option (List (Int × Int))
  byhour : Option (List Int)
  byminute : Option (List Int)
  bysecond : Option (List Int)
  byeaster : Option Int
  tzid : Option String

/-- The return value of `parseOptions`: the canonical options and the
timeset. -/
structure ParseResult where
  parsedOptions : ParsedOptions
  timeset : Option (List Time)

/-- The frequency after the Easter override of line 34 ("resolved
frequency"): forced to YEARLY when an Easter offset is present. -/
def resolvedFreq (raw : RawOptions) : Int :=
  if (mergeOptions raw).byeaster.isSome then RRule.YEARLY else (mergeOptions raw).freq

/-- The start instant after the defaulting of line 40 ("resolved start
instant"): the supplied `dtstart`, or the current instant truncated to whole
seconds. -/
def resolvedDtstart (now : JSDate) (raw : RawOptions) : JSDate :=
  (mergeOptions raw).dtstart.getD (truncateMilliseconds now)

/-- The `millisecondModulo` of line 42: `dtstart.getTime() % 1000` with the
JavaScript truncating remainder (`Int.tmod`). -/
def msModulo (now : JSDate) (raw : RawOptions) : Int :=
  Int.tmod (resolvedDtstart now raw).getTime 1000

/-- The normalized `byhour` list (lines 166-171). -/
def effHour (now : JSDate) (raw : RawOptions) : Option (List Int) :=
  timeField (mergeOptions raw).byhour (decide (resolvedFreq raw < RRule.HOURLY))
    (resolvedDtstart now raw).getUTCHours

/-- The normalized `byminute` list (lines 173-179). -/
def effMinute (now : JSDate) (raw : RawOptions) : Option (List Int) :=
  timeField (mergeOptions raw).byminute (decide (resolvedFreq raw < RRule.MINUTELY))
    (resolvedDtstart now raw).getUTCMinutes

/-- The normalized `bysecond` list (lines 181-187). -/
def effSecond (now : JSDate) (raw : RawOptions) : Option (List Int) :=
  timeField (mergeOptions raw).bysecond (decide (resolvedFreq raw < RRule.SECONDLY))
    (resolvedDtstart now raw).getUTCSeconds

/-- The pure tail of `parseOptions` (lines 40-212): everything computed
after the three `throw` sites have been passed.  All the field rewrites of
the source are pure, so they are gathered here unchanged. -/
def parseOptionsOk (now : JSDate) (options : RawOptions) : ParseResult :=
  let o := mergeOptions options
  let freq := resolvedFreq options
  let dtstart := resolvedDtstart now options
  let wkst : Int :=
    match o.wkst with
    | none => 0
    | some (WkstValue.num n) => n
    | some (WkstValue.token w) => w.weekday
  let derived := deriveImplicit freq dtstart o.bymonth o.bymonthday
    o.byweekno o.byyearday o.byweekday o.byeaster
  let mdpair := splitBymonthday derived.2.1
  let wpair := classifyByweekday freq derived.2.2
  { parsedOptions :=
      { freq := freq
        dtstart := dtstart
        interval := o.interval
        wkst := wkst
        count := o.count
        untilDate := o.untilDate
        bysetpos := o.bysetpos.map promoteNumOrList
        bymonth := derived.1.map promoteNumOrList
        bymonthday := mdpair.1
        bynmonthday := mdpair.2
        byyearday := o.byyearday.map promoteNumOrList
        byweekno := o.byweekno.map promoteNumOrList
        byweekday := wpair.1
        bynweekday := wpair.2
        byhour := effHour now options
        byminute := effMinute now options
        bysecond := effSecond now options
        byeaster := o.byeaster
        tzid := o.tzid }
    timeset := buildTimeset freq (effHour now options) (effMinute now options)
      (effSecond now options) (msModulo now options) }

/-- The whole of `parseOptions` (lines 25-213).  `now` is the current instant, passed
explicitly (the source reads it via `new Date()` at line 40); `throw`
becomes `Except.error`.  The source throws at lines 19, 37 and 57 before
performing any of the pure field rewrites, so the function is the guard
chain over those three conditions followed by `parseOptionsOk`. -/
def parseOptions (now : JSDate) (options : RawOptions) :
    Except RRuleError ParseResult :=
  if (invalidKeysOf options).isEmpty then
    if 0 ≤ resolvedFreq options ∧ resolvedFreq options ≤ 6 then
      if bysetposHasInvalid ((mergeOptions options).bysetpos.map promoteNumOrList) then
        Except.error RRuleError.invalidSetPos
      else
        Except.ok (parseOptionsOk now options)
    else
      Except.error (RRuleError.invalidFrequency (resolvedFreq options))
  else
    Except.error (RRuleError.invalidOptions (invalidKeysOf options))

/-- The cross product of the hour × minute × second candidate lists (hour
outermost, second innermost), every entry carrying the millisecond
remainder `ms` — the declarative form of the TimesetBuilder of the spec. -/
def crossTimes (hs ms_ ss : List Int) (ms : Int) : List Time :=
  hs.flatMap (fun hour =>
    ms_.flatMap (fun minute =>
      ss.map (fun second => Time.mk hour minute second ms)))


/-! ### Support lemmas -/

theorem flatMap_single {α β : Type} (f : α → β) (l : List α) :
    (l.flatMap fun x => [f x]) = l.map f := by
  induction l <;> simp_all

theorem foldl_push {α β : Type} (f : α → List β) :
    ∀ (l : List α) (acc : List β),
      l.foldl (fun a x => a ++ f x) acc = acc ++ l.flatMap f := by
  intro l
  induction l with
  | nil => intro acc; simp
  | cons x xs ih => intro acc; simp [List.foldl_cons, ih]

theorem crossTimes_loop (hs ms_ ss : List Int) (ms : Int) :
    hs.foldl (fun acc hour =>
      ms_.foldl (fun acc2 minute =>
        ss.foldl (fun acc3 second =>
          acc3 ++ [Time.mk hour minute second ms]) acc2) acc) [] =
    crossTimes hs ms_ ss ms := by
  have hinner : ∀ (hour minute : Int) (acc : List Time),
      ss.foldl (fun acc3 second => acc3 ++ [Time.mk hour minute second ms]) acc =
        acc ++ ss.map (fun second => Time.mk hour minute second ms) := by
    intro hour minute acc
    have := foldl_push (fun second => [Time.mk hour minute second ms]) ss acc
    simpa [flatMap_single] using this
  have hmid : ∀ (hour : Int) (acc : List Time),
      ms_.foldl (fun acc2 minute =>
        ss.foldl (fun acc3 second => acc3 ++ [Time.mk hour minute second ms]) acc2) acc =
        acc ++ ms_.flatMap (fun minute => ss.map (fun second => Time.mk hour minute second ms)) := by
    intro hour acc
    have hfun : (fun acc2 minute =>
        ss.foldl (fun acc3 second => acc3 ++ [Time.mk hour minute second ms]) acc2) =
        (fun acc2 minute => acc2 ++
          ss.map (fun second => Time.mk hour minute second ms)) := by
      funext acc2 minute
      exact hinner hour minute acc2
    rw [hfun]
    exact foldl_push _ ms_ acc
  have hfun : (fun acc hour =>
      ms_.foldl (fun acc2 minute =>
        ss.foldl (fun acc3 second => acc3 ++ [Time.mk hour minute second ms]) acc2) acc) =
      (fun acc hour => acc ++
        ms_.flatMap (fun minute => ss.map (fun second => Time.mk hour minute second ms))) := by
    funext acc hour
    exact hmid hour acc
  rw [hfun]
  simpa [crossTimes] using foldl_push
    (fun hour => ms_.flatMap (fun minute => ss.map (fun second => Time.mk hour minute second ms))) hs []

theorem buildTimeset_eq (freq : Int) (H M S : Option (List Int)) (ms : Int) :
    buildTimeset freq H M S ms =
      if RRule.HOURLY ≤ freq then none
      else some (sortTimes (crossTimes (H.getD []) (M.getD []) (S.getD []) ms)) := by
  unfold buildTimeset
  by_cases h : RRule.HOURLY ≤ freq
  · simp [h]
  · simp [h, crossTimes_loop]

instance : IsTotal Time timeLexLE :=
  ⟨fun a b => by unfold timeLexLE; omega⟩

instance : IsTrans Time timeLexLE :=
  ⟨fun a b c hab hbc => by
    unfold timeLexLE at hab hbc ⊢
    omega⟩

theorem sortTimes_pairwise (ts : List Time) :
    List.Pairwise timeLexLE (sortTimes ts) := by
  have := List.sorted_insertionSort timeLexLE ts
  simpa [sortTimes, List.Sorted] using this

theorem sortTimes_perm (ts : List Time) : (sortTimes ts).Perm ts :=
  List.perm_insertionSort _ ts

theorem mem_sortTimes (t : Time) (ts : List Time) : t ∈ sortTimes ts ↔ t ∈ ts :=
  (sortTimes_perm ts).mem_iff

theorem mem_crossTimes (t : Time) (hs ms_ ss : List Int) (ms : Int) :
    t ∈ crossTimes hs ms_ ss ms ↔
      ∃ hour ∈ hs, ∃ minute ∈ ms_, ∃ second ∈ ss, t = Time.mk hour minute second ms := by
  simp only [crossTimes, List.mem_flatMap, List.mem_map]
  constructor
  · rintro ⟨hour, hh, minute, hm, second, hs2, rfl⟩
    exact ⟨hour, hh, minute, hm, second, hs2, rfl⟩
  · rintro ⟨hour, hh, minute, hm, second, hs2, rfl⟩
    exact ⟨hour, hh, minute, hm, second, hs2, rfl⟩

theorem crossTimes_ms (t : Time) (hs ms_ ss : List Int) (ms : Int)
    (h : t ∈ crossTimes hs ms_ ss ms) : t.millisecond = ms := by
  rcases (mem_crossTimes t hs ms_ ss ms).mp h with ⟨hour, _, minute, _, second, _, rfl⟩
  rfl

theorem crossTimes_eq_nil (hs ms_ ss : List Int) (ms : Int) :
    crossTimes hs ms_ ss ms = [] ↔ hs = [] ∨ ms_ = [] ∨ ss = [] := by
  constructor
  · intro h
    by_contra hc
    push_neg at hc
    obtain ⟨h1, h2, h3⟩ := hc
    obtain ⟨a, ha⟩ := List.exists_mem_of_ne_nil hs h1
    obtain ⟨b, hb⟩ := List.exists_mem_of_ne_nil ms_ h2
    obtain ⟨c, hcm⟩ := List.exists_mem_of_ne_nil ss h3
    have : Time.mk a b c ms ∈ crossTimes hs ms_ ss ms :=
      (mem_crossTimes _ hs ms_ ss ms).mpr ⟨a, ha, b, hb, c, hcm, rfl⟩
    rw [h] at this
    exact absurd this (List.not_mem_nil _)
  · rintro (h | h | h) <;> simp [crossTimes, h]


theorem parseOptions_ok_shape (now : JSDate) (raw : RawOptions) (r : ParseResult)
    (h : parseOptions now raw = Except.ok r) : r = parseOptionsOk now raw := by
  unfold parseOptions at h
  split at h
  · split at h
    · split at h
      · exact Except.noConfusion h
      · exact (Except.ok.inj h).symm
    · exact Except.noConfusion h
  · exact Except.noConfusion h

theorem parseOptions_ok_conditions (now : JSDate) (raw : RawOptions) (r : ParseResult)
    (h : parseOptions now raw = Except.ok r) :
    (invalidKeysOf raw).isEmpty = true ∧ (0 ≤ resolvedFreq raw ∧ resolvedFreq raw ≤ 6) ∧
      bysetposHasInvalid ((mergeOptions raw).bysetpos.map promoteNumOrList) = false := by
  unfold parseOptions at h
  split at h
  case isTrue h1 =>
    split at h
    case isTrue h2 =>
      split at h
      case isTrue h3 => exact Except.noConfusion h
      case isFalse h3 => exact ⟨h1, h2, Bool.of_not_eq_true h3⟩
    case isFalse h2 => exact Except.noConfusion h
  case isFalse h1 => exact Except.noConfusion h

theorem parseOptionsOk_timeset (now : JSDate) (raw : RawOptions) :
    (parseOptionsOk now raw).timeset =
      buildTimeset (resolvedFreq raw) (effHour now raw) (effMinute now raw)
        (effSecond now raw) (msModulo now raw) := rfl

theorem jsTruthy_eq (x : Option NumOrList) :
    jsTruthy x = !(decide (x = none) || decide (x = some (NumOrList.num 0))) := by
  rcases x with _ | (n | l)
  · rfl
  · by_cases h : n = 0 <;> simp [jsTruthy, h]
  · rfl


/-! ### C1: the implicit-constraint derivation -/

/-- The exact trigger condition of the derivation, stated declaratively
(amended claim): the week-number constraint is absent or the scalar 0 (any
nonzero scalar or any array, even an empty one, suppresses it); the
year-day constraint is absent, the scalar 0, or an empty array (a nonzero
scalar or a non-empty array suppresses it); the month-day constraint is
absent or the scalar 0; the weekday and Easter-offset constraints are null
(even an empty weekday array suppresses). -/
def specDeriveRuns (bymonthday byweekno byyearday : Option NumOrList)
    (byweekday : Option ByWeekdayValue) (byeaster : Option Int) : Bool :=
  (decide (byweekno = none) || decide (byweekno = some (NumOrList.num 0))) &&
  (decide (byyearday = none) || decide (byyearday = some (NumOrList.num 0)) ||
    decide (byyearday = some (NumOrList.list []))) &&
  (decide (bymonthday = none) || decide (bymonthday = some (NumOrList.num 0))) &&
  byweekday.isNone && byeaster.isNone

theorem decide_nil_eq_isEmpty {α : Type} [DecidableEq α] (l : List α) :
    decide (l = []) = l.isEmpty := by
  cases l <;> simp

theorem deriveCond_eq (bymonthday byweekno byyearday : Option NumOrList)
    (byweekday : Option ByWeekdayValue) (byeaster : Option Int) :
    (jsTruthy byweekno || notEmptyNL byweekno || notEmptyNL byyearday ||
     jsTruthy bymonthday || notEmptyNL bymonthday ||
     byweekday.isSome || byeaster.isSome) =
    !specDeriveRuns bymonthday byweekno byyearday byweekday byeaster := by
  rcases byweekno with _ | (n1 | l1) <;>
  rcases byyearday with _ | (n2 | l2) <;>
  rcases bymonthday with _ | (n3 | l3) <;>
  rcases byweekday with _ | w <;>
  rcases byeaster with _ | e <;>
  simp [jsTruthy, notEmptyNL, specDeriveRuns, List.isEmpty_iff, decide_not, decide_nil_eq_isEmpty]


/-- C1 (corrected): the implicit derivation runs exactly under
`specDeriveRuns` — a per-field condition under which degenerate shapes
(scalar 0 constraints, an empty year-day array on one hand, empty
week-number/month-day/weekday arrays on the other) behave asymmetrically,
so no uniform reading of "none present/non-empty" matches — and, when it
runs, it updates `(bymonth, bymonthday, byweekday)` as the amended claim
states: YEARLY sets the month (only when the month constraint is falsy:
absent or 0) and the month-day; MONTHLY sets the month-day; WEEKLY sets
the weekday list; finer frequencies derive nothing. -/
theorem c1_theorem (freq : Int) (d : JSDate)
    (bymonth bymonthday byweekno byyearday : Option NumOrList)
    (byweekday : Option ByWeekdayValue) (byeaster : Option Int) :
    deriveImplicit freq d bymonth bymonthday byweekno byyearday byweekday byeaster =
      if specDeriveRuns bymonthday byweekno byyearday byweekday byeaster then
        (if freq = RRule.YEARLY then
          ((if decide (bymonth = none) || decide (bymonth = some (NumOrList.num 0)) then
              some (NumOrList.num (d.getUTCMonth + 1))
            else bymonth),
           some (NumOrList.num d.getUTCDate), byweekday)
         else if freq = RRule.MONTHLY then
          (bymonth, some (NumOrList.num d.getUTCDate), byweekday)
         else if freq = RRule.WEEKLY then
          (bymonth, bymonthday, some (ByWeekdayValue.arr [WdEntry.num (getWeekday d)]))
         else (bymonth, bymonthday, byweekday))
      else (bymonth, bymonthday, byweekday) := by
  unfold deriveImplicit
  rw [deriveCond_eq]
  cases hb : specDeriveRuns bymonthday byweekno byyearday byweekday byeaster
  · simp
  · rw [jsTruthy_eq bymonth]
    cases hm : (decide (bymonth = none) || decide (bymonth = some (NumOrList.num 0))) <;>
      simp


/-! ### Concrete instants used by the witnesses and counterexamples -/

/-- A concrete start instant: timestamp 123 ms, October (0-based month 9),
day 15, a Monday (`getUTCDay = 1`), 10:30:45 UTC. -/
def dateA : JSDate :=
  { getTime := 123, getUTCMonth := 9, getUTCDate := 15, getUTCDay := ⟨1, by decide⟩,
    getUTCHours := 10, getUTCMinutes := 30, getUTCSeconds := 45 }

/-- A concrete pre-epoch instant: timestamp -1 ms, i.e. 1969-12-31
23:59:59.999 UTC (millisecond component 999). -/
def dateNeg : JSDate :=
  { getTime := -1, getUTCMonth := 11, getUTCDate := 31, getUTCDay := ⟨3, by decide⟩,
    getUTCHours := 23, getUTCMinutes := 59, getUTCSeconds := 59 }

/-- A concrete current instant. -/
def nowD : JSDate :=
  { getTime := 1700000000123, getUTCMonth := 10, getUTCDate := 14, getUTCDay := ⟨2, by decide⟩,
    getUTCHours := 22, getUTCMinutes := 13, getUTCSeconds := 20 }

/-- A second, different current instant (for the determinism claim). -/
def nowD2 : JSDate :=
  { getTime := 1800000000456, getUTCMonth := 0, getUTCDate := 15, getUTCDay := ⟨4, by decide⟩,
    getUTCHours := 8, getUTCMinutes := 0, getUTCSeconds := 0 }

/-- A throwaway result used only to give `Except.toOption ... |>.getD` a
default. -/
def junkResult : ParseResult :=
  { parsedOptions :=
      { freq := 0, dtstart := dateA, interval := 1, wkst := 0, count := none,
        untilDate := none, bysetpos := none, bymonth := none, bymonthday := [],
        bynmonthday := [], byyearday := none, byweekno := none, byweekday := none,
        bynweekday := none, byhour := none, byminute := none, bysecond := none,
        byeaster := none, tzid := none }
    timeset := none }

/-- YEARLY input whose only constraint is an explicitly empty year-day
array. -/
def rawC1a : RawOptions :=
  { freq := some 0, dtstart := some dateA, byyearday := some (NumOrList.list []) }

/-- WEEKLY input whose only constraint is an explicitly empty week-number
array. -/
def rawC1b : RawOptions :=
  { freq := some 2, dtstart := some dateA, byweekno := some (NumOrList.list []) }

/-- YEARLY input whose only constraint is the month-day scalar 0. -/
def rawC1c : RawOptions :=
  { freq := some 0, dtstart := some dateA, bymonthday := some (NumOrList.num 0) }

/-- C1 counterexample: the claimed trigger is one uniform condition — the
derivation runs iff NONE of the five listed constraints is
present/non-empty — but no reading of present/non-empty matches the code.
`rawC1a` and `rawC1b` each carry exactly one listed constraint in the same
shape (an explicitly empty array), yet the derivation runs for the
year-day one (it sets `bymonthday = [15]`, `bymonth = [10]` from the start
instant) and is suppressed for the week-number one (the WEEKLY weekday
derivation does not happen: `byweekday` stays null instead of becoming the
singleton of the start instant weekday code): if an empty array counts as
present/non-empty, `rawC1a` refutes the claim; if it does not, `rawC1b`
does.  Independently, `rawC1c` refutes the reading that any present
constraint suppresses: its month-day constraint is the present scalar 0,
yet the derivation runs and overwrites it with the start instant
day-of-month. -/
theorem c1_counterexample :
    rawC1a.byyearday = some (NumOrList.list []) ∧
    (parseOptions nowD rawC1a).map
      (fun r => (r.parsedOptions.bymonthday, r.parsedOptions.bymonth)) =
      Except.ok ([15], some [10]) ∧
    rawC1b.byweekno = some (NumOrList.list []) ∧
    (parseOptions nowD rawC1b).map
      (fun r => (r.parsedOptions.byweekday, r.parsedOptions.bynweekday)) =
      Except.ok (none, none) ∧
    rawC1c.bymonthday = some (NumOrList.num 0) ∧
    (parseOptions nowD rawC1c).map (fun r => r.parsedOptions.bymonthday) =
      Except.ok [15] := by
  exact ⟨rfl, rfl, rfl, rfl, rfl, rfl⟩


/-! ### C2: the timeset -/

/-- C2 (confirmed): with a resolved frequency of HOURLY, MINUTELY or
SECONDLY the timeset is `none` (not an empty list); with a coarser
frequency it is exactly the hour × minute × second cross product (hour
outermost, second innermost), every entry carrying the extracted
`millisecondModulo` as its millisecond, sorted ascending by the
`(hour, minute, second, millisecond)` tuple. -/
theorem c2_theorem (now : JSDate) (raw : RawOptions) (r : ParseResult)
    (h : parseOptions now raw = Except.ok r) :
    (RRule.HOURLY ≤ resolvedFreq raw → r.timeset = none) ∧
    (resolvedFreq raw < RRule.HOURLY →
      r.timeset = some (sortTimes (crossTimes ((effHour now raw).getD [])
        ((effMinute now raw).getD []) ((effSecond now raw).getD [])
        (msModulo now raw))) ∧
      (∀ t ∈ (r.timeset.getD []), t.millisecond = msModulo now raw) ∧
      List.Pairwise timeLexLE (r.timeset.getD [])) := by
  have hr := parseOptions_ok_shape now raw r h
  subst hr
  rw [parseOptionsOk_timeset, buildTimeset_eq]
  constructor
  · intro hge
    simp [hge]
  · intro hlt
    have hne : ¬ RRule.HOURLY ≤ resolvedFreq raw := not_le.mpr hlt
    refine ⟨by simp [hne], ?_, ?_⟩
    · intro t ht
      simp only [hne, if_false, Option.getD_some] at ht
      have := (mem_sortTimes t _).mp ht
      exact crossTimes_ms t _ _ _ _ this
    · simp only [hne, if_false, Option.getD_some]
      exact sortTimes_pairwise _


/-- The DAILY example input of the spec: `byhour [9, 10]`, `byminute [0, 30]`,
`bysecond [0]`. -/
def rawC2w : RawOptions :=
  { freq := some 3, dtstart := some dateA,
    byhour := some (NumOrList.list [9, 10]),
    byminute := some (NumOrList.list [0, 30]),
    bysecond := some (NumOrList.list [0]) }

/-- The result of normalizing `rawC2w`. -/
def c2res : ParseResult :=
  ((parseOptions nowD rawC2w).toOption).getD junkResult

theorem c2_theorem_witness :
    parseOptions nowD rawC2w = Except.ok c2res ∧
    c2res.timeset = some (sortTimes (crossTimes ([9, 10]) ([0, 30]) ([0]) 123)) ∧
    (c2res.timeset.getD []).length = 4 := by
  refine ⟨rfl, ?_, by decide⟩
  exact ((c2_theorem nowD rawC2w c2res rfl).2 (by decide)).1


/-! ### C3: month-day splitting -/

theorem splitBymonthday_loop (l : List Int) :
    splitBymonthday (some (NumOrList.list l)) =
      (l.filter (fun a => decide (0 < a)), l.filter (fun a => decide (a < 0))) := by
  show l.foldl _ ([], []) = _
  suffices hgen : ∀ (acc : List Int × List Int),
      l.foldl (fun acc v =>
        if decide (0 < v) then (acc.1 ++ [v], acc.2)
        else if decide (v < 0) then (acc.1, acc.2 ++ [v])
        else acc) acc =
      (acc.1 ++ l.filter (fun a => decide (0 < a)),
       acc.2 ++ l.filter (fun a => decide (a < 0))) by
    simpa using hgen ([], [])
  induction l with
  | nil => intro acc; simp
  | cons v vs ih =>
      intro acc
      rw [List.foldl_cons]
      by_cases h1 : 0 < v
      · have h2 : ¬ v < 0 := by omega
        rw [show (if decide (0 < v) = true then (acc.1 ++ [v], acc.2)
            else if decide (v < 0) = true then (acc.1, acc.2 ++ [v]) else acc) =
            (acc.1 ++ [v], acc.2) from by simp [h1]]
        rw [ih]
        simp [List.filter_cons, h1, h2]
      · by_cases h2 : v < 0
        · rw [show (if decide (0 < v) = true then (acc.1 ++ [v], acc.2)
              else if decide (v < 0) = true then (acc.1, acc.2 ++ [v]) else acc) =
              (acc.1, acc.2 ++ [v]) from by simp [h1, h2]]
          rw [ih]
          simp [List.filter_cons, h1, h2]
        · rw [show (if decide (0 < v) = true then (acc.1 ++ [v], acc.2)
              else if decide (v < 0) = true then (acc.1, acc.2 ++ [v]) else acc) =
              acc from by simp [h1, h2]]
          rw [ih]
          simp [List.filter_cons, h1, h2]

/-- C3 (confirmed): month-day normalization — absent gives two empty
buckets; an array is partitioned into strictly-positive and
strictly-negative elements in order, zeros dropped; a negative scalar fills
only the negative bucket and a non-negative scalar only the positive one;
and `[5, -5, 0]` yields `([5], [-5])`. -/
theorem c3_theorem (v : Int) (l : List Int) :
    splitBymonthday none = ([], []) ∧
    splitBymonthday (some (NumOrList.list l)) =
      (l.filter (fun a => decide (0 < a)), l.filter (fun a => decide (a < 0))) ∧
    (v < 0 → splitBymonthday (some (NumOrList.num v)) = ([], [v])) ∧
    (0 ≤ v → splitBymonthday (some (NumOrList.num v)) = ([v], [])) ∧
    splitBymonthday (some (NumOrList.list [5, -5, 0])) = ([5], [-5]) := by
  refine ⟨rfl, splitBymonthday_loop l, ?_, ?_, by decide⟩
  · intro hv
    simp [splitBymonthday, hv]
  · intro hv
    have : ¬ v < 0 := by omega
    simp [splitBymonthday, this]

theorem c3_theorem_witness :
    splitBymonthday (some (NumOrList.num (-5))) = ([], [-5]) ∧
    splitBymonthday (some (NumOrList.num 5)) = ([5], []) ∧
    splitBymonthday (some (NumOrList.num 0)) = ([0], []) :=
  ⟨(c3_theorem (-5) []).2.2.1 (by decide),
   (c3_theorem 5 []).2.2.2.1 (by decide),
   (c3_theorem 0 []).2.2.2.1 (by decide)⟩


/-! ### C4: weekday classification -/

/-- The plain-weekday bucket of a weekday array, stated declaratively (the
classification rule of the claim): bare codes always; tokens with no ordinal, or
any token when the frequency is strictly finer than MONTHLY (ordinal
discarded). -/
def specPlainOf (freq : Int) (l : List WdEntry) : List Int :=
  l.filterMap (fun e =>
    match e with
    | WdEntry.num m => some m
    | WdEntry.token w =>
        match w.n with
        | none => some w.weekday
        | some _ => if RRule.MONTHLY < freq then some w.weekday else none)

/-- The ordinal bucket of a weekday array, stated declaratively: tokens
with an ordinal under YEARLY or MONTHLY, as `(weekdayCode, n)` pairs. -/
def specOrdinalsOf (freq : Int) (l : List WdEntry) : List (Int × Int) :=
  l.filterMap (fun e =>
    match e with
    | WdEntry.num _ => none
    | WdEntry.token w =>
        match w.n with
        | none => none
        | some k => if RRule.MONTHLY < freq then none else some (w.weekday, k))

theorem classifyByweekday_arr (freq : Int) (l : List WdEntry) :
    classifyByweekday freq (some (ByWeekdayValue.arr l)) =
      ((if (specPlainOf freq l).isEmpty then none else some (specPlainOf freq l)),
       (if (specOrdinalsOf freq l).isEmpty then none else some (specOrdinalsOf freq l))) := by
  suffices hgen : ∀ (acc : List Int × List (Int × Int)),
      l.foldl (fun acc e =>
        match e with
        | WdEntry.num n => (acc.1 ++ [n], acc.2)
        | WdEntry.token w =>
            match w.n with
            | none => (acc.1 ++ [w.weekday], acc.2)
            | some k =>
                if decide (k = 0) || decide (RRule.MONTHLY < freq) then
                  (acc.1 ++ [w.weekday], acc.2)
                else
                  (acc.1, acc.2 ++ [(w.weekday, k)])) acc =
      (acc.1 ++ specPlainOf freq l, acc.2 ++ specOrdinalsOf freq l) by
    simp only [classifyByweekday]
    rw [hgen (([], []) : List Int × List (Int × Int))]
    simp
  induction l with
  | nil => intro acc; simp [specPlainOf, specOrdinalsOf]
  | cons e es ih =>
      intro acc
      rw [List.foldl_cons, ih]
      rcases e with m | w
      · simp [specPlainOf, specOrdinalsOf, List.filterMap_cons]
      · rcases hn : w.n with _ | k
        · simp [specPlainOf, specOrdinalsOf, List.filterMap_cons, hn]
        · have hk : k ≠ 0 := fun hk0 => w.n_nonzero (hk0 ▸ hn)
          by_cases hf : RRule.MONTHLY < freq
          · simp [specPlainOf, specOrdinalsOf, List.filterMap_cons, hn, hf]
          · simp [specPlainOf, specOrdinalsOf, List.filterMap_cons, hn, hf, hk]


/-- C4 (confirmed): weekday-token classification.  A token with no ordinal,
or any token when the resolved frequency is strictly finer than MONTHLY,
contributes its bare code to the plain bucket (ordinal discarded); a token
with an ordinal `n` under YEARLY or MONTHLY lands in the ordinal bucket as
`(weekdayCode, n)`; bare numeric codes always go to the plain bucket; an
array is classified element-wise by the same rule with each empty bucket
set to null. -/
theorem c4_theorem (f : Int) (c k nv : Int) (hk : k ≠ 0) (l : List WdEntry) :
    classifyByweekday f none = (none, none) ∧
    classifyByweekday f (some (ByWeekdayValue.num nv)) = (some [nv], none) ∧
    classifyByweekday f (some (ByWeekdayValue.token ⟨c, none, by decide⟩)) =
      (some [c], none) ∧
    (RRule.MONTHLY < f →
      classifyByweekday f (some (ByWeekdayValue.token ⟨c, some k, by simpa using hk⟩)) =
        (some [c], none)) ∧
    (f ≤ RRule.MONTHLY →
      classifyByweekday f (some (ByWeekdayValue.token ⟨c, some k, by simpa using hk⟩)) =
        (none, some [(c, k)])) ∧
    classifyByweekday f (some (ByWeekdayValue.arr l)) =
      ((if (specPlainOf f l).isEmpty then none else some (specPlainOf f l)),
       (if (specOrdinalsOf f l).isEmpty then none else some (specOrdinalsOf f l))) := by
  refine ⟨rfl, rfl, rfl, ?_, ?_, classifyByweekday_arr f l⟩
  · intro hf
    simp [classifyByweekday, hf]
  · intro hf
    have hflt : ¬ RRule.MONTHLY < f := not_lt.mpr hf
    simp [classifyByweekday, hflt, hk]

theorem c4_theorem_witness :
    classifyByweekday RRule.MONTHLY
      (some (ByWeekdayValue.token ⟨2, some 2, by decide⟩)) = (none, some [(2, 2)]) ∧
    classifyByweekday RRule.WEEKLY
      (some (ByWeekdayValue.token ⟨2, some 2, by decide⟩)) = (some [2], none) :=
  ⟨(c4_theorem 1 2 2 7 (by decide) []).2.2.2.2.1 (by decide),
   (c4_theorem 2 2 2 7 (by decide) []).2.2.2.1 (by decide)⟩


/-! ### C5: set-position validation -/

theorem bysetposBad_iff (v : Int) :
    (decide (v = 0) || !(decide (-366 ≤ v) && decide (v ≤ 366))) = true ↔
      (v = 0 ∨ v < -366 ∨ 366 < v) := by
  by_cases h0 : v = 0
  · simp [h0]
  · by_cases hlo : -366 ≤ v
    · by_cases hhi : v ≤ 366
      · simp [h0, hlo, hhi]
      · simp [h0, hlo, hhi]
        omega
    · simp [h0, hlo]
      omega

/-- C5 (confirmed): with valid keys and a valid resolved frequency, supplying
a set-position value makes `parseOptions` fail with the set-position error
exactly when some element of the (scalar-promoted) list is 0 or outside
[-366, 366]; when every element is legal the whole call succeeds. -/
theorem c5_theorem (now : JSDate) (raw : RawOptions) (sp : NumOrList)
    (h1 : invalidKeysOf raw = [])
    (h2 : 0 ≤ resolvedFreq raw ∧ resolvedFreq raw ≤ 6)
    (h3 : raw.bysetpos = some sp) :
    (parseOptions now raw = Except.error RRuleError.invalidSetPos ↔
      ∃ v ∈ promoteNumOrList sp, v = 0 ∨ v < -366 ∨ 366 < v) ∧
    ((∀ v ∈ promoteNumOrList sp, v ≠ 0 ∧ -366 ≤ v ∧ v ≤ 366) →
      ∃ r, parseOptions now raw = Except.ok r) := by
  have hmb : (mergeOptions raw).bysetpos = some sp := h3
  have hbad : bysetposHasInvalid ((mergeOptions raw).bysetpos.map promoteNumOrList) = true ↔
      ∃ v ∈ promoteNumOrList sp, v = 0 ∨ v < -366 ∨ 366 < v := by
    rw [hmb]
    simp only [Option.map_some', bysetposHasInvalid, List.any_eq_true]
    constructor
    · rintro ⟨v, hv, hp⟩
      exact ⟨v, hv, (bysetposBad_iff v).mp hp⟩
    · rintro ⟨v, hv, hp⟩
      exact ⟨v, hv, (bysetposBad_iff v).mpr hp⟩
  unfold parseOptions
  rw [h1]
  simp only [List.isEmpty_nil, if_true]
  rw [if_pos h2]
  cases hc : bysetposHasInvalid ((mergeOptions raw).bysetpos.map promoteNumOrList)
  · constructor
    · constructor
      · intro habs
        exact Except.noConfusion habs
      · intro hex
        rw [← hbad] at hex
        exact absurd hex (by simp [hc])
    · intro _
      exact ⟨parseOptionsOk now raw, rfl⟩
  · constructor
    · constructor
      · intro _
        exact hbad.mp hc
      · intro _
        rfl
    · intro hall
      obtain ⟨v, hv, hp⟩ := hbad.mp hc
      obtain ⟨hv1, hv2, hv3⟩ := hall v hv
      omega


/-- Input with `bysetpos = 0` (illegal). -/
def rawC5zero : RawOptions :=
  { freq := some 0, dtstart := some dateA, bysetpos := some (NumOrList.num 0) }

/-- Input with `bysetpos = 367` (illegal). -/
def rawC5big : RawOptions :=
  { freq := some 0, dtstart := some dateA, bysetpos := some (NumOrList.num 367) }

/-- Input with `bysetpos = -366` (legal). -/
def rawC5neg : RawOptions :=
  { freq := some 0, dtstart := some dateA, bysetpos := some (NumOrList.num (-366)) }

theorem c5_theorem_witness :
    parseOptions nowD rawC5zero = Except.error RRuleError.invalidSetPos ∧
    parseOptions nowD rawC5big = Except.error RRuleError.invalidSetPos ∧
    (∃ r, parseOptions nowD rawC5neg = Except.ok r) :=
  ⟨(c5_theorem nowD rawC5zero (NumOrList.num 0) rfl (by decide) rfl).1.mpr (by decide),
   (c5_theorem nowD rawC5big (NumOrList.num 367) rfl (by decide) rfl).1.mpr (by decide),
   (c5_theorem nowD rawC5neg (NumOrList.num (-366)) rfl (by decide) rfl).2 (by decide)⟩


/-! ### C6: key validation -/

theorem joinComma_infix (k : String) : ∀ (ks : List String), k ∈ ks →
    ∃ pre suf : List Char, (joinComma ks).data = pre ++ (k.data ++ suf) := by
  intro ks
  induction ks with
  | nil => intro h; exact absurd h (List.not_mem_nil k)
  | cons a rest ih =>
      intro hmem
      cases rest with
      | nil =>
          rcases List.mem_singleton.mp hmem with rfl
          exact ⟨[], [], by simp [joinComma]⟩
      | cons r rs =>
          rcases List.mem_cons.mp hmem with rfl | hmem2
          · refine ⟨[], ((", ") ++ joinComma (r :: rs)).data, ?_⟩
            show (k ++ (", ") ++ joinComma (r :: rs)).data = _
            simp [String.data_append]
          · obtain ⟨pre, suf, hps⟩ := ih hmem2
            refine ⟨(a ++ (", ")).data ++ pre, suf, ?_⟩
            show (a ++ (", ") ++ joinComma (r :: rs)).data = _
            simp [String.data_append, hps]

/-- C6 (confirmed): `parseOptions` fails with the invalid-option-key error
exactly when some present field name is outside the recognized key set; the
error then carries the full list of offending keys (all of them, in input
order), and the rendered message contains every one of them as a substring
of its character data. -/
theorem c6_theorem (now : JSDate) (o : RawOptions) :
    ((∃ ks, parseOptions now o = Except.error (RRuleError.invalidOptions ks)) ↔
        invalidKeysOf o ≠ []) ∧
    (∀ ks, parseOptions now o = Except.error (RRuleError.invalidOptions ks) →
        ks = invalidKeysOf o) ∧
    (∀ k ∈ invalidKeysOf o,
      ∃ pre suf : List Char,
        (errorMessage (RRuleError.invalidOptions (invalidKeysOf o))).data =
          pre ++ (k.data ++ suf)) := by
  have hmsg : ∀ k ∈ invalidKeysOf o,
      ∃ pre suf : List Char,
        (errorMessage (RRuleError.invalidOptions (invalidKeysOf o))).data =
          pre ++ (k.data ++ suf) := by
    intro k hk
    obtain ⟨pre, suf, hps⟩ := joinComma_infix k (invalidKeysOf o) hk
    refine ⟨(("Invalid options: ") : String).data ++ pre, suf, ?_⟩
    show ((("Invalid options: ") : String) ++ joinComma (invalidKeysOf o)).data = _
    simp [String.data_append, hps]
  unfold parseOptions
  cases he : (invalidKeysOf o).isEmpty
  · have hne : invalidKeysOf o ≠ [] := by
      intro hnil
      rw [hnil] at he
      exact Bool.noConfusion he
    simp only [Bool.false_eq_true, if_false]
    exact ⟨⟨fun _ => hne, fun _ => ⟨invalidKeysOf o, rfl⟩⟩,
           fun ks hks => ((RRuleError.invalidOptions.inj (Except.error.inj hks))).symm,
           hmsg⟩
  · have hnil : invalidKeysOf o = [] := List.isEmpty_iff.mp he
    simp only [if_true]
    refine ⟨⟨?_, ?_⟩, ?_, hmsg⟩
    · rintro ⟨ks, hks⟩
      split at hks
      · split at hks
        · exact RRuleError.noConfusion (Except.error.inj hks)
        · exact Except.noConfusion hks
      · exact RRuleError.noConfusion (Except.error.inj hks)
    · intro hne
      exact absurd hnil hne
    · intro ks hks
      split at hks
      · split at hks
        · exact RRuleError.noConfusion (Except.error.inj hks)
        · exact Except.noConfusion hks
      · exact RRuleError.noConfusion (Except.error.inj hks)

/-- An input carrying the unrecognized key `"foo"`. -/
def rawC6 : RawOptions :=
  { freq := some 0, dtstart := some dateA, extraKeys := ["foo"] }

theorem c6_theorem_witness :
    parseOptions nowD rawC6 = Except.error (RRuleError.invalidOptions ["foo"]) ∧
    (["foo"] : List String) = invalidKeysOf rawC6 ∧
    (∃ pre suf : List Char,
      (errorMessage (RRuleError.invalidOptions (invalidKeysOf rawC6))).data =
        pre ++ ((("foo") : String).data ++ suf)) :=
  ⟨rfl, (c6_theorem nowD rawC6).2.1 (["foo"]) rfl,
   (c6_theorem nowD rawC6).2.2 (("foo") : String) (by decide)⟩


/-! ### C7: Easter override and frequency validation -/

/-- C7 (confirmed): with valid keys, an input with a non-null Easter offset
never fails the frequency check (the override to YEARLY is validated, and
it is valid), and on success its resolved frequency is YEARLY regardless of
the supplied value; without an Easter offset, the call fails with the
invalid-frequency error exactly when the supplied-or-defaulted frequency is
not one of the seven enum members 0..6. -/
theorem c7_theorem (now : JSDate) (raw : RawOptions) (h1 : invalidKeysOf raw = []) :
    (raw.byeaster.isSome = true →
      (∀ e, parseOptions now raw ≠ Except.error (RRuleError.invalidFrequency e)) ∧
      (∀ r, parseOptions now raw = Except.ok r →
        r.parsedOptions.freq = RRule.YEARLY)) ∧
    (raw.byeaster = none →
      ((∃ e, parseOptions now raw = Except.error (RRuleError.invalidFrequency e)) ↔
        ¬(0 ≤ (mergeOptions raw).freq ∧ (mergeOptions raw).freq ≤ 6))) := by
  constructor
  · intro heaster
    have hfreq : resolvedFreq raw = RRule.YEARLY := by
      unfold resolvedFreq
      have : (mergeOptions raw).byeaster.isSome = true := heaster
      rw [if_pos this]
    have hok : (0 ≤ resolvedFreq raw ∧ resolvedFreq raw ≤ 6) := by
      rw [hfreq]
      exact ⟨le_refl 0, by norm_num [RRule.YEARLY]⟩
    constructor
    · intro e habs
      unfold parseOptions at habs
      rw [h1] at habs
      simp only [List.isEmpty_nil, if_true] at habs
      rw [if_pos hok] at habs
      split at habs
      · exact RRuleError.noConfusion (Except.error.inj habs)
      · exact Except.noConfusion habs
    · intro r hr
      have := parseOptions_ok_shape now raw r hr
      subst this
      show resolvedFreq raw = RRule.YEARLY
      exact hfreq
  · intro heaster
    have hfreq : resolvedFreq raw = (mergeOptions raw).freq := by
      unfold resolvedFreq
      have : (mergeOptions raw).byeaster = none := heaster
      rw [this]
      rfl
    unfold parseOptions
    rw [h1]
    simp only [List.isEmpty_nil, if_true]
    by_cases hok : (0 ≤ resolvedFreq raw ∧ resolvedFreq raw ≤ 6)
    · rw [if_pos hok]
      constructor
      · rintro ⟨e, he⟩
        split at he
        · exact RRuleError.noConfusion (Except.error.inj he)
        · exact Except.noConfusion he
      · intro hbad
        rw [hfreq] at hok
        exact absurd hok hbad
    · rw [if_neg hok]
      constructor
      · intro _
        rw [← hfreq]
        exact hok
      · intro _
        exact ⟨resolvedFreq raw, rfl⟩

/-- Easter offset supplied together with an out-of-range frequency 99. -/
def rawC7a : RawOptions :=
  { freq := some 99, dtstart := some dateA, byeaster := some 5 }

/-- The same out-of-range frequency 99 without an Easter offset. -/
def rawC7b : RawOptions :=
  { freq := some 99, dtstart := some dateA }

theorem c7_theorem_witness :
    (∀ e, parseOptions nowD rawC7a ≠ Except.error (RRuleError.invalidFrequency e)) ∧
    (parseOptions nowD rawC7a).map (fun r => r.parsedOptions.freq) =
      Except.ok RRule.YEARLY ∧
    (∃ e, parseOptions nowD rawC7b = Except.error (RRuleError.invalidFrequency e)) :=
  ⟨((c7_theorem nowD rawC7a rfl).1 rfl).1, rfl,
   ((c7_theorem nowD rawC7b rfl).2 rfl).mpr (by decide)⟩


/-! ### C8: timeset invariants -/

/-- DAILY input whose `byhour` is supplied as an explicitly empty array. -/
def rawC8 : RawOptions :=
  { freq := some 3, dtstart := some dateA, byhour := some (NumOrList.list []) }

/-- C8 counterexample: the claim says a produced timeset is never an empty
list, yet normalizing `rawC8` (DAILY with `byhour: []`) succeeds and
returns `some []` — an empty list, not `null`. -/
theorem c8_counterexample :
    (parseOptions nowD rawC8).map (fun r => r.timeset) =
      Except.ok (some ([] : List Time)) ∧
    some ([] : List Time) ≠ (none : Option (List Time)) := by
  exact ⟨rfl, by decide⟩

theorem timeField_getD_empty (x : Option NumOrList) (dflt : Int) :
    (timeField x true dflt).getD [] = [] ↔ x = some (NumOrList.list []) := by
  rcases x with _ | (n | l) <;> simp [timeField]

theorem sortTimes_eq_nil (ts : List Time) : sortTimes ts = [] ↔ ts = [] := by
  rw [← List.length_eq_zero, (sortTimes_perm ts).length_eq, List.length_eq_zero]

/-- C8 (corrected): whenever normalization succeeds with a frequency
coarser than HOURLY, the produced timeset is a list sorted ascending by
the `(hour, minute, second, millisecond)` tuple, and it is empty exactly
when one of the hour, minute or second constraints was supplied as an
explicitly empty array (so with no empty array supplied, an empty list is
never returned). -/
theorem c8_theorem (now : JSDate) (raw : RawOptions) (r : ParseResult)
    (h : parseOptions now raw = Except.ok r)
    (hf : resolvedFreq raw < RRule.HOURLY) :
    ∃ L, r.timeset = some L ∧
      List.Pairwise timeLexLE L ∧
      (L = [] ↔ raw.byhour = some (NumOrList.list []) ∨
        raw.byminute = some (NumOrList.list []) ∨
        raw.bysecond = some (NumOrList.list [])) := by
  have hr := parseOptions_ok_shape now raw r h
  subst hr
  rw [parseOptionsOk_timeset, buildTimeset_eq]
  have hne : ¬ RRule.HOURLY ≤ resolvedFreq raw := not_le.mpr hf
  have h4 : decide (resolvedFreq raw < RRule.HOURLY) = true := decide_eq_true hf
  have h5 : decide (resolvedFreq raw < RRule.MINUTELY) = true := by
    refine decide_eq_true (lt_trans hf ?_)
    norm_num [RRule.HOURLY, RRule.MINUTELY]
  have h6 : decide (resolvedFreq raw < RRule.SECONDLY) = true := by
    refine decide_eq_true (lt_trans hf ?_)
    norm_num [RRule.HOURLY, RRule.SECONDLY]
  have hH : effHour now raw = timeField raw.byhour true (resolvedDtstart now raw).getUTCHours := by
    unfold effHour
    rw [h4]
    rfl
  have hM : effMinute now raw =
      timeField raw.byminute true (resolvedDtstart now raw).getUTCMinutes := by
    unfold effMinute
    rw [h5]
    rfl
  have hS : effSecond now raw =
      timeField raw.bysecond true (resolvedDtstart now raw).getUTCSeconds := by
    unfold effSecond
    rw [h6]
    rfl
  refine ⟨sortTimes (crossTimes ((effHour now raw).getD []) ((effMinute now raw).getD [])
    ((effSecond now raw).getD []) (msModulo now raw)), by simp [hne], sortTimes_pairwise _, ?_⟩
  rw [sortTimes_eq_nil, crossTimes_eq_nil, hH, hM, hS,
    timeField_getD_empty raw.byhour, timeField_getD_empty raw.byminute,
    timeField_getD_empty raw.bysecond]

/-- A plain DAILY input (no explicit empty array anywhere). -/
def rawC8w : RawOptions :=
  { freq := some 3, dtstart := some dateA }

/-- The result of normalizing `rawC8w`. -/
def c8res : ParseResult :=
  ((parseOptions nowD rawC8w).toOption).getD junkResult

theorem c8_theorem_witness :
    ∃ L, c8res.timeset = some L ∧
      List.Pairwise timeLexLE L ∧
      (L = [] ↔ rawC8w.byhour = some (NumOrList.list []) ∨
        rawC8w.byminute = some (NumOrList.list []) ∨
        rawC8w.bysecond = some (NumOrList.list [])) :=
  c8_theorem nowD rawC8w c8res rfl (by decide)


/-! ### C9: the millisecond remainder -/

/-- DAILY input anchored at the pre-epoch instant `dateNeg`. -/
def rawC9 : RawOptions :=
  { freq := some 3, dtstart := some dateNeg, byhour := some (NumOrList.num 1),
    byminute := some (NumOrList.num 2), bysecond := some (NumOrList.num 3) }

/-- C9 counterexample: for the pre-epoch start instant `dateNeg`
(timestamp -1, millisecond component 999) the code computes
`getTime() % 1000 = -1` with the JavaScript truncating remainder, so every
timeset entry carries -1, not the millisecond component 999. -/
theorem c9_counterexample :
    (parseOptions nowD rawC9).map (fun r => r.timeset) =
      Except.ok (some [Time.mk 1 2 3 (-1)]) ∧
    JSDate.getUTCMilliseconds dateNeg = 999 ∧
    ((-1 : Int) ≠ 999) := by
  exact ⟨rfl, by decide, by decide⟩

/-- C9 (corrected): every entry of a produced timeset carries exactly the
extracted remainder `dtstart.getTime() % 1000` (JavaScript truncating
remainder, `msModulo`); that remainder equals the millisecond component of
the resolved start instant whenever the instant is at or after the Unix
epoch (`0 ≤ getTime`), and it is 0 whenever `dtstart` was defaulted; the
`dtstart` field of the output is the resolved start instant. -/
theorem c9_theorem (now : JSDate) (raw : RawOptions) (r : ParseResult)
    (h : parseOptions now raw = Except.ok r) :
    (∀ L, r.timeset = some L → ∀ t ∈ L, t.millisecond = msModulo now raw) ∧
    (0 ≤ (resolvedDtstart now raw).getTime →
      msModulo now raw = JSDate.getUTCMilliseconds (resolvedDtstart now raw)) ∧
    (raw.dtstart = none → msModulo now raw = 0) ∧
    r.parsedOptions.dtstart = resolvedDtstart now raw := by
  have hr := parseOptions_ok_shape now raw r h
  subst hr
  refine ⟨?_, ?_, ?_, rfl⟩
  · intro L hL t ht
    rw [parseOptionsOk_timeset, buildTimeset_eq] at hL
    by_cases hge : RRule.HOURLY ≤ resolvedFreq raw
    · rw [if_pos hge] at hL
      exact Option.noConfusion hL
    · rw [if_neg hge] at hL
      have hL2 := Option.some.inj hL
      subst hL2
      have := (mem_sortTimes t _).mp ht
      exact crossTimes_ms t _ _ _ _ this
  · intro hge
    unfold msModulo JSDate.getUTCMilliseconds
    exact Int.tmod_eq_emod hge (by norm_num)
  · intro hnone
    have hd : resolvedDtstart now raw = truncateMilliseconds now := by
      unfold resolvedDtstart
      have : (mergeOptions raw).dtstart = none := hnone
      rw [this]
      rfl
    unfold msModulo
    rw [hd]
    show Int.tmod (now.getTime - Int.emod now.getTime 1000) 1000 = 0
    have hdecomp : now.getTime - Int.emod now.getTime 1000 = 1000 * (now.getTime / 1000) := by
      show now.getTime - now.getTime % 1000 = 1000 * (now.getTime / 1000)
      rw [Int.emod_def]
      ring
    rw [hdecomp]
    exact Int.mul_tmod_right 1000 _

/-- A DAILY input anchored at `dateA` (timestamp 123). -/
def rawC9w : RawOptions :=
  { freq := some 3, dtstart := some dateA,
    byhour := some (NumOrList.list [8, 9]) }

/-- The result of normalizing `rawC9w`. -/
def c9res : ParseResult :=
  ((parseOptions nowD rawC9w).toOption).getD junkResult

theorem c9_theorem_witness :
    msModulo nowD rawC9w = JSDate.getUTCMilliseconds (resolvedDtstart nowD rawC9w) ∧
    (∀ L, c9res.timeset = some L → ∀ t ∈ L, t.millisecond = msModulo nowD rawC9w) :=
  ⟨(c9_theorem nowD rawC9w c9res rfl).2.1 (by decide),
   (c9_theorem nowD rawC9w c9res rfl).1⟩

/-! ### C10: determinism -/

/-- C10 (confirmed): when a start instant is supplied, the current clock
instant is never consulted — two calls at different current times return
identical results (canonical options and timeset). -/
theorem c10_theorem (raw : RawOptions) (d : JSDate) (h : raw.dtstart = some d)
    (now1 now2 : JSDate) :
    parseOptions now1 raw = parseOptions now2 raw := by
  have hd : ∀ now : JSDate, resolvedDtstart now raw = d := by
    intro now
    unfold resolvedDtstart
    have : (mergeOptions raw).dtstart = some d := h
    rw [this]
    rfl
  have heff : ∀ now : JSDate,
      effHour now raw = effHour now1 raw ∧ effMinute now raw = effMinute now1 raw ∧
      effSecond now raw = effSecond now1 raw ∧ msModulo now raw = msModulo now1 raw := by
    intro now
    refine ⟨?_, ?_, ?_, ?_⟩ <;>
      simp only [effHour, effMinute, effSecond, msModulo, hd]
  have hok : parseOptionsOk now1 raw = parseOptionsOk now2 raw := by
    obtain ⟨e1, e2, e3, e4⟩ := heff now2
    unfold parseOptionsOk
    rw [hd now1, hd now2, e1, e2, e3, e4]
  unfold parseOptions
  rw [hok]

/-- A WEEKLY input with a supplied start instant. -/
def rawC10 : RawOptions :=
  { freq := some 2, dtstart := some dateA }

theorem c10_theorem_witness :
    parseOptions nowD rawC10 = parseOptions nowD2 rawC10 :=
  c10_theorem rawC10 dateA rfl nowD nowD2

end RRuleSpec
